import Mathlib

/-!
Verification of the base-checkin client (src/game.js): the check-in ledger
(`calculateStreak`, `getUserData`, `saveCheckIn`, the duplicate guard of
`handleCheckIn`), the provider resolver (`getProvider`), and the environment
detector (`detectFarcasterFrame`).

Modelling conventions:
- A calendar-date string `YYYY-MM-DD` (always produced by
  `new Date().toISOString().split('T')[0]`, hence zero-padded UTC) is
  represented by its UTC epoch-day number as an `Int`.  On such strings the
  JavaScript lexicographic `sort()` coincides with the numeric order of the
  day numbers, and `Math.floor((new Date(a) - new Date(b)) / 86400000)`
  equals the difference of the day numbers, so the embedding works directly
  on day numbers.
- A JavaScript object used as a dictionary is represented by an association
  list in insertion order; property read is the first matching key, property
  write replaces an existing key in place or appends a new one.
- `localStorage` content is represented explicitly; `JSON.parse` of a
  malformed string, which throws in JavaScript, is represented by an
  `Except` error.
-/

namespace BaseCheckin

/-- Comparison used by the JavaScript `sort()` on canonical date strings:
lexicographic string order, which on zero-padded dates is day-number order. -/
def dateLe (a b : Int) : Bool := a ≤ b

/-- Model of JavaScript `String.prototype.toLowerCase` on the (ASCII) wallet
address strings used by the app. -/
def toLowerCase (s : String) : String := String.mk (s.data.map Char.toLower)

/-- Property read `m[k]` on a JavaScript object represented as an association
list: the value at the first matching key, if any. -/
def objGet {κ β : Type} [DecidableEq κ] (m : List (κ × β)) (k : κ) : Option β :=
  (m.find? (fun p => decide (p.1 = k))).map Prod.snd

/-- Property write `m[k] = v` on a JavaScript object: replace the value at an
existing key in place, otherwise append the new key at the end. -/
def objSet {κ β : Type} [DecidableEq κ] (m : List (κ × β)) (k : κ) (v : β) : List (κ × β) :=
  if m.any (fun p => decide (p.1 = k)) then
    m.map (fun p => if p.1 = k then (k, v) else p)
  else
    m ++ [(k, v)]

/-- Per-wallet record persisted under `STORAGE_KEY` (src/game.js:473-513). -/
structure UserData where
  dates : List Int
  streak : Nat
  total : Nat
  lastDate : Option Int
  signatures : List (Int × String)
deriving Repr, DecidableEq

/-- The default record `{dates: [], streak: 0, total: 0, lastDate: null,
signatures: {}}` used when a wallet has no entry (src/game.js:475-481). -/
def emptyUserData : UserData :=
  { dates := [], streak := 0, total := 0, lastDate := none, signatures := [] }

/-- The parsed content of the `base_checkins` store: lowercase wallet address
to record. -/
abbrev Store := List (String × UserData)

/-- The walk of `calculateStreak` (src/game.js:527-538): `streak = 1`, then
for each adjacent pair of the descending list add one while the day
difference is exactly 1, stopping at the first gap. -/
def streakWalk : List Int → Nat
  | a :: b :: rest => if a - b = 1 then 1 + streakWalk (b :: rest) else 1
  | _ => 1

/-- `calculateStreak` (src/game.js:515-541).  `today` is the value of
`getTodayString()` and `today - 1` the value of `getYesterdayString()` at the
moment of the call. -/
def calculateStreak (dates : List Int) (today : Int) : Nat :=
  if dates.length = 0 then 0
  else
    let sortedDates := (dates.mergeSort dateLe).reverse
    let yesterday := today - 1
    match sortedDates with
    | [] => 0
    | d0 :: rest =>
      if d0 ≠ today ∧ d0 ≠ yesterday then 0
      else streakWalk (d0 :: rest)

/-- `getUserData` (src/game.js:473-482) applied to an already parsed store:
look up the lowercased wallet address, defaulting to the empty record. -/
def getUserData (store : Store) (wallet : String) : UserData :=
  (objGet store (toLowerCase wallet)).getD emptyUserData

/-- The record mutation performed by `saveCheckIn` (src/game.js:495-509):
insert the date if absent and re-sort, store the signature, recompute
`total`, recompute `streak`, and set `lastDate`. -/
def updatedUserData (userData : UserData) (date : Int) (signature : String)
    (today : Int) : UserData :=
  let dates :=
    if date ∈ userData.dates then userData.dates
    else (userData.dates ++ [date]).mergeSort dateLe
  { dates := dates,
    streak := calculateStreak dates today,
    total := dates.length,
    lastDate := some date,
    signatures := objSet userData.signatures date signature }

/-- `saveCheckIn` (src/game.js:484-513): read-modify-write of the wallet's
record under its lowercased key.  `today` is the ambient `getTodayString()`
value used by the inner `calculateStreak` call. -/
def saveCheckIn (store : Store) (wallet : String) (date : Int)
    (signature : String) (today : Int) : Store :=
  let walletKey := toLowerCase wallet
  let userData := (objGet store walletKey).getD emptyUserData
  objSet store walletKey (updatedUserData userData date signature today)

/-- `AlreadyCheckedInError`: the duplicate-day rejection raised by the guard
in `handleCheckIn` (src/game.js:407-410). -/
inductive CheckinError where
  | alreadyCheckedIn
deriving Repr, DecidableEq

/-- The commit path of `handleCheckIn` (src/game.js:400-457): reject when the
day is already recorded, otherwise persist via `saveCheckIn`.  The single
`today` computed at src/game.js:403 serves both as the stored date and as the
streak-recomputation date. -/
def commitCheckIn (store : Store) (wallet : String) (today : Int)
    (signature : String) : Except CheckinError Store :=
  let userData := getUserData store wallet
  if today ∈ userData.dates then .error .alreadyCheckedIn
  else .ok (saveCheckIn store wallet today signature today)

/-- One user-visible check-in attempt: on rejection the store is untouched
(the guard returns before any write, src/game.js:407-410). -/
def runCheckIn (store : Store) (wallet : String) (today : Int)
    (signature : String) : Store × Option CheckinError :=
  match commitCheckIn store wallet today signature with
  | .ok st => (st, none)
  | .error e => (store, some e)

/-- Failure of `JSON.parse` on the persisted string (a thrown `SyntaxError`,
which `getUserData` does not catch). -/
inductive StorageError where
  | parseError
deriving Repr, DecidableEq

/-- The raw content of `localStorage.getItem(STORAGE_KEY)`: absent (`null`),
present but not valid JSON, or parsed successfully. -/
inductive StoreContent where
  | absent
  | malformed
  | parsed (store : Store)

/-- `getUserData` (src/game.js:473-482) including the
`JSON.parse(localStorage.getItem(STORAGE_KEY) || '\x7b\x7d')` step: an absent
store parses as the empty object, a malformed store makes `JSON.parse` throw
and the exception propagates out of `getUserData`. -/
def readUserData (content : StoreContent) (wallet : String) :
    Except StorageError UserData :=
  match content with
  | .absent => .ok (getUserData [] wallet)
  | .malformed => .error .parseError
  | .parsed store => .ok (getUserData store wallet)

/-- Opaque handle for a wallet-signing backend. -/
abbrev Provider := Nat

/-- `NoProviderError` with the user-visible message thrown by `getProvider`. -/
inductive ProviderError where
  | noProvider (msg : String)
deriving Repr, DecidableEq

/-- Message thrown at src/game.js:178. -/
def installWalletMsg : String := "Please install MetaMask or Rabby wallet."

/-- Message thrown at src/game.js:192. -/
def noWalletFoundMsg : String := "No wallet found. Please try again in Warpcast."

/-- The wallet backends visible to `getProvider`: the injected extension
`window.ethereum`, if present, and the result of `getFarcasterProvider()`
(`none` when the host bridge is unavailable). -/
structure BrowserEnv where
  windowEthereum : Option Provider
  farcasterProvider : Option Provider

/-- `getProvider` (src/game.js:172-193).  `isInFarcasterFrame = false` is the
Standalone environment, `true` the EmbeddedFrame environment. -/
def getProvider (isInFarcasterFrame : Bool) (env : BrowserEnv) :
    Except ProviderError Provider :=
  if !isInFarcasterFrame then
    match env.windowEthereum with
    | some p => .ok p
    | none => .error (.noProvider installWalletMsg)
  else
    match env.farcasterProvider with
    | some p => .ok p
    | none =>
      match env.windowEthereum with
      | some p => .ok p
      | none => .error (.noProvider noWalletFoundMsg)

/-- Outcome of evaluating `window.self !== window.top`: equal (own top-level
context), different (embedded, accessible), or a thrown cross-origin error. -/
inductive TopWindowAccess where
  | same
  | different
  | throws
deriving Repr, DecidableEq

/-- `detectFarcasterFrame` (src/game.js:14-30): iframe check first, then the
`fc_frame` / `fid` URL-parameter check; a cross-origin throw while reading
`window.top` is caught and classified as being in a frame. -/
def detectFarcasterFrame (top : TopWindowAccess)
    (hasFcFrameParam hasFidParam : Bool) : Bool :=
  match top with
  | .throws => true
  | .different => true
  | .same => hasFcFrameParam || hasFidParam

/-- `detectMiniApp` of the third revision (src/unnamed/part_000): the SDK's
own `isInMiniApp()` query when it answers within the timeout, otherwise the
iframe fallback where a cross-origin throw again classifies as embedded. -/
def detectMiniApp (isInMiniAppResult : Option Bool) (top : TopWindowAccess) : Bool :=
  match isInMiniAppResult with
  | some b => b
  | none =>
    match top with
    | .same => false
    | .different => true
    | .throws => true

/-- The record invariant of the ledger: `total` counts `dates`, `dates` is
duplicate-free and sorted ascending, and the signature keys are exactly the
recorded dates. -/
def Inv (u : UserData) : Prop :=
  u.total = u.dates.length ∧
  u.dates.Nodup ∧
  u.dates.Pairwise (· ≤ ·) ∧
  (∀ x, x ∈ u.signatures.map Prod.fst ↔ x ∈ u.dates)

/-- Stores reachable from the empty store by successful check-in commits. -/
inductive Reachable : Store → Prop where
  | empty : Reachable []
  | step {store store' : Store} {w : String} {d : Int} {s : String} :
      Reachable store → commitCheckIn store w d s = .ok store' → Reachable store'

/-- Concrete one-check-in record used by witnesses: wallet `0xA`, day 100,
signature `s1`. -/
def record100 : UserData :=
  { dates := [100], streak := 1, total := 1, lastDate := some 100,
    signatures := [(100, "s1")] }

/-- Concrete store holding `record100` under the lowercased key. -/
def store100 : Store := [("0xa", record100)]

theorem dateLe_trans : ∀ (a b c : Int), dateLe a b → dateLe b c → dateLe a c := by
  intro a b c hab hbc
  simp only [dateLe, decide_eq_true_eq] at hab hbc ⊢
  omega

theorem dateLe_total : ∀ (a b : Int), dateLe a b || dateLe b a := by
  intro a b
  simp only [dateLe, Bool.or_eq_true, decide_eq_true_eq]
  omega

theorem find_map_set {κ β : Type} [DecidableEq κ] (k : κ) (v : β) :
    ∀ (m : List (κ × β)), m.any (fun p => decide (p.1 = k)) = true →
      (m.map (fun p => if p.1 = k then (k, v) else p)).find?
        (fun p => decide (p.1 = k)) = some (k, v)
  | [], h => by simp at h
  | p :: t, h => by
    by_cases hp : p.1 = k
    · simp [List.find?, hp]
    · have ht : t.any (fun p => decide (p.1 = k)) = true := by
        simpa [List.any_cons, hp] using h
      simpa [List.find?, hp] using find_map_set k v t ht

theorem find_append_single {κ β : Type} [DecidableEq κ] (k : κ) (v : β)
    (m : List (κ × β)) (h : m.any (fun p => decide (p.1 = k)) = false) :
    (m ++ [(k, v)]).find? (fun p => decide (p.1 = k)) = some (k, v) := by
  induction m with
  | nil => simp [List.find?]
  | cons p t ih =>
    have hp : ¬ (p.1 = k) := by
      intro hcon
      simp [List.any_cons, hcon] at h
    have ht : t.any (fun p => decide (p.1 = k)) = false := by
      rw [List.any_cons] at h
      simpa [hp] using h
    simpa [List.find?, hp] using ih ht

theorem objGet_objSet_self {κ β : Type} [DecidableEq κ] (m : List (κ × β)) (k : κ) (v : β) :
    objGet (objSet m k v) k = some v := by
  by_cases hany : m.any (fun p => decide (p.1 = k)) = true
  · rw [objGet, objSet, if_pos hany, find_map_set k v m hany]
    rfl
  · have hf : m.any (fun p => decide (p.1 = k)) = false :=
      Bool.not_eq_true _ ▸ hany
    rw [objGet, objSet, if_neg hany, find_append_single k v m hf]
    rfl

theorem find_map_set_ne {κ β : Type} [DecidableEq κ] (k k' : κ) (v : β) (hkk : k' ≠ k) :
    ∀ (m : List (κ × β)),
      (m.map (fun p => if p.1 = k then (k, v) else p)).find?
        (fun p => decide (p.1 = k')) = m.find? (fun p => decide (p.1 = k'))
  | [] => by simp
  | p :: t => by
    rw [List.map_cons]
    by_cases hp : p.1 = k
    · have h1 : ¬ ((if p.1 = k then (k, v) else p).1 = k') := by
        rw [if_pos hp]
        exact fun hcon => hkk hcon.symm
      have h2 : ¬ (p.1 = k') := by
        rw [hp]
        exact fun hcon => hkk hcon.symm
      rw [List.find?_cons_of_neg _ (by simpa using h1),
          List.find?_cons_of_neg _ (by simpa using h2)]
      exact find_map_set_ne k k' v hkk t
    · rw [if_neg hp]
      by_cases hq : p.1 = k'
      · rw [List.find?_cons_of_pos _ (by simpa using hq),
            List.find?_cons_of_pos _ (by simpa using hq)]
      · rw [List.find?_cons_of_neg _ (by simpa using hq),
            List.find?_cons_of_neg _ (by simpa using hq)]
        exact find_map_set_ne k k' v hkk t

theorem objGet_objSet_ne {κ β : Type} [DecidableEq κ] (m : List (κ × β)) (k k' : κ) (v : β)
    (hkk : k' ≠ k) : objGet (objSet m k v) k' = objGet m k' := by
  by_cases hany : m.any (fun p => decide (p.1 = k)) = true
  · rw [objGet, objSet, if_pos hany, find_map_set_ne k k' v hkk m]
    rfl
  · unfold objGet objSet
    rw [if_neg hany, List.find?_append]
    have h1 : [(k, v)].find? (fun p => decide (p.1 = k')) = none := by
      simp only [List.find?]
      have : ¬ ((k, v).1 = k') := fun hcon => hkk hcon.symm
      simp [this]
    rw [h1]
    cases m.find? (fun p => decide (p.1 = k')) <;> rfl

theorem mem_keys_objSet {κ β : Type} [DecidableEq κ] (m : List (κ × β)) (k k' : κ) (v : β) :
    k' ∈ (objSet m k v).map Prod.fst ↔ k' = k ∨ k' ∈ m.map Prod.fst := by
  by_cases hany : m.any (fun p => decide (p.1 = k)) = true
  · have hkeys : (m.map (fun p => if p.1 = k then (k, v) else p)).map Prod.fst
        = m.map Prod.fst := by
      rw [List.map_map]
      apply List.map_congr_left
      intro p _
      by_cases hp : p.1 = k
      · simp [hp]
      · simp [hp]
    have hkmem : k ∈ m.map Prod.fst := by
      rw [List.any_eq_true] at hany
      obtain ⟨p, hpmem, hpk⟩ := hany
      rw [decide_eq_true_eq] at hpk
      exact hpk ▸ List.mem_map_of_mem Prod.fst hpmem
    rw [objSet, if_pos hany, hkeys]
    constructor
    · exact Or.inr
    · rintro (h | h)
      · exact h ▸ hkmem
      · exact h
  · rw [objSet, if_neg hany]
    simp [List.mem_append, or_comm]

theorem streakWalk_eq_of_run : ∀ (R : List Int) (m : Int) (N : Nat),
    1 ≤ N →
    (m :: R).Pairwise (fun a b => b < a) →
    (∀ i : Nat, 1 ≤ i → i < N → m - (i : Int) ∈ R) →
    (m - (N : Int)) ∉ R →
    streakWalk (m :: R) = N
  | [], m, N, hN, _, hmem, _ => by
    have hN1 : N = 1 := by
      by_contra hne
      exact absurd (hmem 1 (by omega) (by omega)) (List.not_mem_nil _)
    rw [hN1]
    rfl
  | b :: R, m, N, hN, hpw, hmem, hnot => by
    have hblt : b < m := List.rel_of_pairwise_cons hpw (List.mem_cons_self b R)
    have hpwt : (b :: R).Pairwise (fun a b => b < a) := hpw.of_cons
    rcases Nat.lt_or_ge N 2 with hsmall | hbig
    · have hN1 : N = 1 := by omega
      subst hN1
      have hb_ne : ¬ (m - b = 1) := by
        intro hcon
        have hb1 : m - ((1 : Nat) : Int) = b := by push_cast; omega
        exact hnot (hb1 ▸ List.mem_cons_self b R)
      rw [streakWalk, if_neg hb_ne]
    · have hm1 : m - ((1 : Nat) : Int) ∈ b :: R := hmem 1 (by omega) (by omega)
      have hb_eq : b = m - 1 := by
        rcases List.mem_cons.mp hm1 with h | h
        · push_cast at h
          omega
        · have h3 : m - ((1 : Nat) : Int) < b := List.rel_of_pairwise_cons hpwt h
          push_cast at h3
          omega
      have hdiff : m - b = 1 := by omega
      rw [streakWalk, if_pos hdiff]
      have hres : streakWalk (b :: R) = N - 1 := by
        apply streakWalk_eq_of_run R b (N - 1) (by omega) hpwt
        · intro i hi1 hiN
          have hmm : m - ((i + 1 : Nat) : Int) ∈ b :: R := hmem (i + 1) (by omega) (by omega)
          have hne_b : m - ((i + 1 : Nat) : Int) ≠ b := by push_cast; omega
          have heq : b - ((i : Nat) : Int) = m - ((i + 1 : Nat) : Int) := by push_cast; omega
          rw [heq]
          rcases List.mem_cons.mp hmm with h | h
          · exact absurd h.symm (by push_cast; omega)
          · exact h
        · intro hcon
          have heq : b - ((N - 1 : Nat) : Int) = m - ((N : Nat) : Int) := by
            push_cast [Nat.cast_sub (by omega : 1 ≤ N)]
            omega
          rw [heq] at hcon
          exact hnot (List.mem_cons_of_mem b hcon)
      rw [hres]
      omega

theorem sortedDesc_pairwise_le (dates : List Int) :
    ((dates.mergeSort dateLe).reverse).Pairwise (fun a b => b ≤ a) := by
  have h := List.sorted_mergeSort dateLe_trans dateLe_total dates
  rw [List.pairwise_reverse]
  exact h.imp (fun hab => by simpa [dateLe] using hab)

theorem sortedDesc_pairwise_lt (dates : List Int) (hnd : dates.Nodup) :
    ((dates.mergeSort dateLe).reverse).Pairwise (fun a b => b < a) := by
  have h1 := sortedDesc_pairwise_le dates
  have h2 : ((dates.mergeSort dateLe).reverse).Nodup := by
    rw [List.nodup_reverse]
    exact ((dates.mergeSort_perm dateLe).nodup_iff).mpr hnd
  exact (h1.and h2).imp (fun hab => lt_of_le_of_ne hab.1 (Ne.symm hab.2))

theorem sortedDesc_head_max (dates : List Int) (m : Int) (hm : m ∈ dates)
    (hmax : ∀ x ∈ dates, x ≤ m) :
    ∃ R, (dates.mergeSort dateLe).reverse = m :: R := by
  cases hrev : (dates.mergeSort dateLe).reverse with
  | nil =>
    exfalso
    have hmm : m ∈ (dates.mergeSort dateLe).reverse := by
      rw [List.mem_reverse, List.mem_mergeSort]
      exact hm
    rw [hrev] at hmm
    exact List.not_mem_nil m hmm
  | cons d0 R =>
    have hd0mem : d0 ∈ dates := by
      have hd : d0 ∈ (dates.mergeSort dateLe).reverse := by
        rw [hrev]
        exact List.mem_cons_self d0 R
      rwa [List.mem_reverse, List.mem_mergeSort] at hd
    have hmle : m ≤ d0 := by
      have hmrev : m ∈ d0 :: R := by
        rw [← hrev, List.mem_reverse, List.mem_mergeSort]
        exact hm
      rcases List.mem_cons.mp hmrev with h | h
      · omega
      · have hpw := sortedDesc_pairwise_le dates
        rw [hrev] at hpw
        exact List.rel_of_pairwise_cons hpw h
    have hd0m : d0 = m := le_antisymm (hmax d0 hd0mem) hmle
    subst hd0m
    exact ⟨R, rfl⟩

theorem mem_sortedDesc (dates : List Int) (x : Int) :
    x ∈ (dates.mergeSort dateLe).reverse ↔ x ∈ dates := by
  rw [List.mem_reverse, List.mem_mergeSort]

theorem calculateStreak_eq_walk (dates : List Int) (today m : Int) (R : List Int)
    (hrev : (dates.mergeSort dateLe).reverse = m :: R)
    (halive : m = today ∨ m = today - 1) :
    calculateStreak dates today = streakWalk (m :: R) := by
  have hne : ¬ (dates.length = 0) := by
    intro hcon
    rw [List.length_eq_zero] at hcon
    subst hcon
    simp at hrev
  rw [calculateStreak, if_neg hne]
  simp only [hrev]
  rw [if_neg]
  rintro ⟨h1, h2⟩
  rcases halive with h | h
  · exact h1 h
  · exact h2 h

theorem calculateStreak_eq_zero_of_dead (dates : List Int) (today m : Int) (R : List Int)
    (hrev : (dates.mergeSort dateLe).reverse = m :: R)
    (h1 : m ≠ today) (h2 : m ≠ today - 1) :
    calculateStreak dates today = 0 := by
  have hne : ¬ (dates.length = 0) := by
    intro hcon
    rw [List.length_eq_zero] at hcon
    subst hcon
    simp at hrev
  rw [calculateStreak, if_neg hne]
  simp only [hrev]
  rw [if_pos ⟨h1, h2⟩]

theorem commit_ok_elim (store : Store) (w : String) (d : Int) (s : String) (store₁ : Store)
    (h : commitCheckIn store w d s = .ok store₁) :
    d ∉ (getUserData store w).dates ∧ store₁ = saveCheckIn store w d s d := by
  by_cases hd : d ∈ (getUserData store w).dates
  · rw [commitCheckIn] at h
    simp [hd] at h
  · rw [commitCheckIn] at h
    simp only [if_neg hd, Except.ok.injEq] at h
    exact ⟨hd, h.symm⟩

theorem getUserData_saveCheckIn_self (store : Store) (w : String) (d : Int) (s : String)
    (t : Int) :
    getUserData (saveCheckIn store w d s t) w
      = updatedUserData (getUserData store w) d s t := by
  unfold getUserData saveCheckIn
  rw [objGet_objSet_self]
  rfl

theorem mem_dates_updated (u : UserData) (d : Int) (s : String) (t : Int) (hd : d ∉ u.dates) :
    d ∈ (updatedUserData u d s t).dates := by
  rw [updatedUserData]
  simp only [if_neg hd]
  rw [List.mem_mergeSort, List.mem_append]
  exact Or.inr (List.mem_singleton_self d)

theorem save_roundTrip (store : Store) (w : String) (d : Int) (s : String) (store₁ : Store)
    (h : commitCheckIn store w d s = .ok store₁) :
    objGet (getUserData store₁ w).signatures d = some s ∧
    d ∈ (getUserData store₁ w).dates := by
  obtain ⟨hd, hsave⟩ := commit_ok_elim store w d s store₁ h
  subst hsave
  rw [getUserData_saveCheckIn_self]
  constructor
  · rw [updatedUserData]
    exact objGet_objSet_self _ d s
  · exact mem_dates_updated _ d s d hd

theorem Inv_empty : Inv emptyUserData := by
  refine ⟨rfl, List.nodup_nil, List.Pairwise.nil, ?_⟩
  intro x
  simp [emptyUserData]

theorem Inv_updated (u : UserData) (d : Int) (s : String) (t : Int)
    (hInv : Inv u) (hd : d ∉ u.dates) : Inv (updatedUserData u d s t) := by
  obtain ⟨htot, hnd, hsort, hsig⟩ := hInv
  unfold Inv updatedUserData
  simp only [if_neg hd]
  refine ⟨by trivial, ?_, ?_, ?_⟩
  · rw [(List.mergeSort_perm _ dateLe).nodup_iff, List.nodup_append]
    refine ⟨hnd, List.nodup_singleton d, ?_⟩
    rw [List.disjoint_singleton]
    exact hd
  · have h := List.sorted_mergeSort dateLe_trans dateLe_total (u.dates ++ [d])
    exact h.imp (fun hab => by simpa [dateLe] using hab)
  · intro x
    rw [mem_keys_objSet, List.mem_mergeSort, List.mem_append, List.mem_singleton, hsig x]
    tauto

/-- Claim C1: `calculateStreak` matches the reference definition — it returns 0
on the empty list, and for any duplicate-free date set whose most recent day
`m` equals `today` or `today - 1`, it returns the length `N` of the maximal
run of consecutive calendar days ending at `m` (all of `m, m-1, …, m-N+1` are
checked in and `m-N` is not): the walk stops at the first gap. -/
theorem calculateStreak_matches_reference :
    (∀ today : Int, calculateStreak [] today = 0) ∧
    ∀ (dates : List Int) (today m : Int) (N : Nat),
      dates.Nodup → m ∈ dates → (∀ x ∈ dates, x ≤ m) →
      (m = today ∨ m = today - 1) →
      (∀ i : Nat, i < N → m - (i : Int) ∈ dates) →
      (m - (N : Int)) ∉ dates →
      calculateStreak dates today = N := by
  constructor
  · intro today
    rfl
  · intro dates today m N hnd hm hmax halive hrun hstop
    obtain ⟨R, hrev⟩ := sortedDesc_head_max dates m hm hmax
    rw [calculateStreak_eq_walk dates today m R hrev halive]
    have hpw : (m :: R).Pairwise (fun a b => b < a) := by
      have h := sortedDesc_pairwise_lt dates hnd
      rwa [hrev] at h
    have hN1 : 1 ≤ N := by
      by_contra hc
      have hN0 : N = 0 := by omega
      subst hN0
      apply hstop
      simpa using hm
    apply streakWalk_eq_of_run R m N hN1 hpw
    · intro i hi1 hiN
      have hmemd : m - (i : Int) ∈ dates := hrun i hiN
      have hmemr : m - (i : Int) ∈ m :: R := by
        rw [← hrev, mem_sortedDesc]
        exact hmemd
      rcases List.mem_cons.mp hmemr with heq | hmem
      · exfalso
        have hge : (1 : Int) ≤ (i : Int) := by exact_mod_cast hi1
        omega
      · exact hmem
    · intro hcon
      apply hstop
      rw [← mem_sortedDesc dates, hrev]
      exact List.mem_cons_of_mem m hcon

/-- Witness for C1: check-ins on days 1, 2 and 4, evaluated on day 4, yield
streak 1, via the claim theorem at `dates = [1, 2, 4]`, `m = 4`, `N = 1`. -/
theorem calculateStreak_matches_reference_witness :
    calculateStreak [] 4 = 0 ∧ calculateStreak [1, 2, 4] 4 = 1 := by
  refine ⟨calculateStreak_matches_reference.1 4, ?_⟩
  apply calculateStreak_matches_reference.2 [1, 2, 4] 4 4 1
  · decide
  · decide
  · decide
  · exact Or.inl rfl
  · intro i hi
    have : i = 0 := by omega
    subst this
    norm_num
  · norm_num

/-- Claim C2: for every non-empty date set whose most recent day `m` is
neither `today` nor `today - 1`, `calculateStreak` returns 0 even when past
consecutive runs exist; in particular `calculateStreak [today - 5] today = 0`. -/
theorem calculateStreak_broken_zero (dates : List Int) (today m : Int)
    (hm : m ∈ dates) (hmax : ∀ x ∈ dates, x ≤ m)
    (h1 : m ≠ today) (h2 : m ≠ today - 1) :
    calculateStreak dates today = 0 ∧ ∀ t : Int, calculateStreak [t - 5] t = 0 := by
  constructor
  · obtain ⟨R, hrev⟩ := sortedDesc_head_max dates m hm hmax
    exact calculateStreak_eq_zero_of_dead dates today m R hrev h1 h2
  · intro t
    have hrev : (([t - 5] : List Int).mergeSort dateLe).reverse = (t - 5) :: [] := by
      simp
    exact calculateStreak_eq_zero_of_dead [t - 5] t (t - 5) [] hrev (by omega) (by omega)

/-- Witness for C2: a lone check-in on day 3 read on day 10 yields streak 0,
and `[10 - 5]` on day 10 yields 0, via the claim theorem at `m = 3`. -/
theorem calculateStreak_broken_zero_witness :
    calculateStreak [3] 10 = 0 ∧ calculateStreak [(10 : Int) - 5] 10 = 0 := by
  have h := calculateStreak_broken_zero [3] 10 3 (by decide) (by decide) (by decide) (by decide)
  exact ⟨h.1, h.2 10⟩


/-- Evaluation of one concrete successful commit, shared by the witnesses. -/
theorem commit_store100 : commitCheckIn [] "0xA" 100 "s1" = .ok store100 := by
  have hlow : toLowerCase "0xA" = "0xa" := by decide
  simp [commitCheckIn, getUserData, saveCheckIn, updatedUserData, objGet, objSet,
        emptyUserData, calculateStreak, streakWalk, hlow, store100, record100]

/-- Claim C3: after a successful `commitCheckIn` for `(wallet, date)`, a second
commit for the same pair fails with `AlreadyCheckedInError` and performs no
mutation: the store, the stored record, its `total` and its `dates` length
are all unchanged by the rejected call. -/
theorem commitCheckIn_second_rejected (store store₁ : Store) (w : String) (d : Int)
    (s s' : String) (h : commitCheckIn store w d s = .ok store₁) :
    runCheckIn store₁ w d s' = (store₁, some CheckinError.alreadyCheckedIn) ∧
    getUserData (runCheckIn store₁ w d s').1 w = getUserData store₁ w ∧
    (getUserData (runCheckIn store₁ w d s').1 w).total = (getUserData store₁ w).total ∧
    (getUserData (runCheckIn store₁ w d s').1 w).dates.length
      = (getUserData store₁ w).dates.length := by
  obtain ⟨hd, hsave⟩ := commit_ok_elim store w d s store₁ h
  have hmem : d ∈ (getUserData store₁ w).dates := by
    rw [hsave, getUserData_saveCheckIn_self]
    exact mem_dates_updated _ d s d hd
  have hrej : commitCheckIn store₁ w d s' = .error .alreadyCheckedIn := by
    rw [commitCheckIn, if_pos hmem]
  have hrun : runCheckIn store₁ w d s' = (store₁, some CheckinError.alreadyCheckedIn) := by
    rw [runCheckIn, hrej]
  exact ⟨hrun, by rw [hrun], by rw [hrun], by rw [hrun]⟩

/-- Witness for C3: re-committing day 100 for wallet `0xA` on the concrete
one-entry store is rejected and leaves the store unchanged. -/
theorem commitCheckIn_second_rejected_witness :
    runCheckIn store100 "0xA" 100 "s2" = (store100, some CheckinError.alreadyCheckedIn) :=
  (commitCheckIn_second_rejected [] store100 "0xA" 100 "s1" "s2" commit_store100).1

/-- Claim C7: round-trip — after `commitCheckIn w d s` succeeds, reading the
record back gives `signatures[d] = s` and `d ∈ dates`. -/
theorem commitCheckIn_roundTrip (store store₁ : Store) (w : String) (d : Int) (s : String)
    (h : commitCheckIn store w d s = .ok store₁) :
    objGet (getUserData store₁ w).signatures d = some s ∧
    d ∈ (getUserData store₁ w).dates :=
  save_roundTrip store w d s store₁ h

/-- Witness for C7: the committed signature `s1` for day 100 is read back from
the concrete store. -/
theorem commitCheckIn_roundTrip_witness :
    objGet (getUserData store100 "0xA").signatures 100 = some "s1" ∧
    (100 : Int) ∈ (getUserData store100 "0xA").dates :=
  commitCheckIn_roundTrip [] store100 "0xA" 100 "s1" commit_store100

/-- Counterexample for C4: commit on day 100 stores `streak = 1`; a read
performed on day 105 still returns `streak = 1` although recomputing from the
stored dates at day 105 gives 0.  `getUserData` serves the cached value and
never recomputes on read, refuting the claim as stated. -/
theorem getUserData_stale_streak_cex :
    commitCheckIn [] "0xA" 100 "s1" = .ok store100 ∧
    (getUserData store100 "0xA").streak = 1 ∧
    calculateStreak (getUserData store100 "0xA").dates 105 = 0 ∧
    (getUserData store100 "0xA").streak
      ≠ calculateStreak (getUserData store100 "0xA").dates 105 := by
  have hlow : toLowerCase "0xA" = "0xa" := by decide
  have hget : getUserData store100 "0xA" = record100 := by
    simp [getUserData, objGet, store100, hlow]
  refine ⟨commit_store100, ?_, ?_, ?_⟩
  · rw [hget]
    rfl
  · rw [hget]
    simp [record100, calculateStreak, streakWalk]
  · rw [hget]
    simp [record100, calculateStreak, streakWalk]

/-- Claim C4 (amended): the `streak` field returned by `getUserData` equals
`calculateStreak` applied to the record's dates and the date of the LAST
successful commit (the value is recomputed from `dates` at write time and
served as a cached value on read, which can be stale on later days). -/
theorem streak_recomputed_at_commit (store store₁ : Store) (w : String) (d : Int)
    (s : String) (h : commitCheckIn store w d s = .ok store₁) :
    (getUserData store₁ w).streak = calculateStreak (getUserData store₁ w).dates d := by
  obtain ⟨hd, hsave⟩ := commit_ok_elim store w d s store₁ h
  subst hsave
  rw [getUserData_saveCheckIn_self, updatedUserData]

/-- Witness for amended C4: on the concrete store the cached streak equals the
recomputation at the commit date 100. -/
theorem streak_recomputed_at_commit_witness :
    (getUserData store100 "0xA").streak
      = calculateStreak (getUserData store100 "0xA").dates 100 :=
  streak_recomputed_at_commit [] store100 "0xA" 100 "s1" commit_store100

/-- Counterexample for C5: when the persisted store string is malformed,
`JSON.parse` throws and `getUserData` propagates the exception instead of
returning the default empty record, refuting the claim as stated. -/
theorem readUserData_malformed_cex :
    readUserData StoreContent.malformed "0xa" = .error StorageError.parseError ∧
    readUserData StoreContent.malformed "0xa" ≠ .ok emptyUserData :=
  ⟨rfl, by simp [readUserData]⟩

/-- Claim C5 (amended): `getUserData` returns the default empty record when
the persisted store is absent, or parses but holds no entry for the wallet;
on malformed persisted data it instead throws a parse error (the code has no
handler for `JSON.parse` failure). -/
theorem readUserData_recovery (w : String) (store : Store)
    (hmissing : objGet store (toLowerCase w) = none) :
    readUserData StoreContent.absent w = .ok emptyUserData ∧
    readUserData (StoreContent.parsed store) w = .ok emptyUserData ∧
    readUserData StoreContent.malformed w = .error StorageError.parseError := by
  refine ⟨rfl, ?_, rfl⟩
  simp only [readUserData, getUserData, hmissing, Option.getD_none]

/-- Witness for amended C5: wallet `0xb` has no entry in the concrete store. -/
theorem readUserData_recovery_witness :
    readUserData StoreContent.absent "0xb" = .ok emptyUserData ∧
    readUserData (StoreContent.parsed store100) "0xb" = .ok emptyUserData ∧
    readUserData StoreContent.malformed "0xb" = .error StorageError.parseError :=
  readUserData_recovery "0xb" store100 (by decide)

/-- Claim C6: in every store reachable from the empty store by successful
`commitCheckIn` calls, every wallet's record satisfies the invariant:
`total = |dates|`, `dates` duplicate-free and sorted ascending, and the
signature keys are exactly the recorded dates. -/
theorem ledger_invariant_reachable (store : Store) (h : Reachable store) (w : String) :
    Inv (getUserData store w) := by
  induction h with
  | empty => exact Inv_empty
  | @step store₀ store₁ w₀ d s hre hok ih =>
    obtain ⟨hd, hsave⟩ := commit_ok_elim store₀ w₀ d s store₁ hok
    subst hsave
    by_cases hkey : toLowerCase w = toLowerCase w₀
    · rw [getUserData, saveCheckIn, hkey, objGet_objSet_self, Option.getD_some]
      apply Inv_updated
      · show Inv (getUserData store₀ w₀)
        have hw : getUserData store₀ w = getUserData store₀ w₀ := by
          rw [getUserData, getUserData, hkey]
        rw [← hw]
        exact ih
      · exact hd
    · rw [getUserData, saveCheckIn, objGet_objSet_ne _ _ _ _ hkey]
      exact ih

/-- Witness for C6: the invariant holds on the concrete reachable store built
by one commit from the empty store. -/
theorem ledger_invariant_reachable_witness : Inv (getUserData store100 "0xa") :=
  ledger_invariant_reachable store100 (Reachable.step Reachable.empty commit_store100) "0xa"

/-- Claim C8: wallet lookup is case-insensitive — wallets equal up to letter
case read the identical record, and a check-in committed under one casing is
visible (date and signature) under the other. -/
theorem getUserData_case_insensitive (store : Store) (w1 w2 : String) (d : Int) (s : String)
    (hcase : toLowerCase w1 = toLowerCase w2) :
    getUserData store w1 = getUserData store w2 ∧
    ∀ store₁, commitCheckIn store w1 d s = .ok store₁ →
      d ∈ (getUserData store₁ w2).dates ∧
      objGet (getUserData store₁ w2).signatures d = some s := by
  have hg : ∀ st : Store, getUserData st w1 = getUserData st w2 := by
    intro st
    rw [getUserData, getUserData, hcase]
  refine ⟨hg store, ?_⟩
  intro store₁ h
  have hrt := save_roundTrip store w1 d s store₁ h
  rw [← hg store₁]
  exact ⟨hrt.2, hrt.1⟩

/-- Witness for C8: `0xA` and `0xa` read the same record, and the commit made
as `0xA` is visible as `0xa` on the concrete store. -/
theorem getUserData_case_insensitive_witness :
    getUserData [] "0xA" = getUserData [] "0xa" ∧
    (100 : Int) ∈ (getUserData store100 "0xa").dates ∧
    objGet (getUserData store100 "0xa").signatures 100 = some "s1" := by
  have h := getUserData_case_insensitive [] "0xA" "0xa" 100 "s1" (by decide)
  exact ⟨h.1, (h.2 store100 commit_store100).1, (h.2 store100 commit_store100).2⟩

/-- Claim C9: `getProvider` follows the specified fallback order: standalone
uses the injected wallet or fails with the install-a-wallet message; in the
embedded frame it uses the host bridge, else the injected wallet, else fails
with the no-wallet-found message. -/
theorem getProvider_fallback_order (eth fcp : Option Provider) :
    (∀ p, eth = some p → getProvider false ⟨eth, fcp⟩ = .ok p) ∧
    (eth = none →
      getProvider false ⟨eth, fcp⟩ = .error (.noProvider installWalletMsg)) ∧
    (∀ p, fcp = some p → getProvider true ⟨eth, fcp⟩ = .ok p) ∧
    (∀ p, fcp = none → eth = some p → getProvider true ⟨eth, fcp⟩ = .ok p) ∧
    (fcp = none → eth = none →
      getProvider true ⟨eth, fcp⟩ = .error (.noProvider noWalletFoundMsg)) := by
  refine ⟨?_, ?_, ?_, ?_, ?_⟩
  · intro p hp
    subst hp
    rfl
  · intro hp
    subst hp
    rfl
  · intro p hp
    subst hp
    rfl
  · intro p hf he
    subst hf
    subst he
    rfl
  · intro hf he
    subst hf
    subst he
    rfl

/-- Witness for C9: both failure and success branches at concrete inputs. -/
theorem getProvider_fallback_order_witness :
    getProvider true ⟨none, none⟩ = .error (.noProvider noWalletFoundMsg) ∧
    getProvider false ⟨some 7, none⟩ = .ok 7 :=
  ⟨(getProvider_fallback_order none none).2.2.2.2 rfl rfl,
   (getProvider_fallback_order (some 7) none).1 7 rfl⟩

/-- Claim C10: when inspecting the top-level browsing context throws due to
cross-origin restriction, `detectFarcasterFrame` classifies as embedded
regardless of URL parameters, and so does the `detectMiniApp` fallback when
the SDK embedding query is unavailable. -/
theorem crossOrigin_classified_embedded :
    (∀ hasFcFrameParam hasFidParam : Bool,
      detectFarcasterFrame TopWindowAccess.throws hasFcFrameParam hasFidParam = true) ∧
    detectMiniApp none TopWindowAccess.throws = true :=
  ⟨fun _ _ => rfl, rfl⟩

end BaseCheckin
